import Mathlib

/-!
Verification development for `build_dc_fidb.py`, a script that reorganizes
object/archive files from a Dreamcast SDK tree by compiler toolchain and
build variant and then drives an external headless analysis tool to build a
Function ID database.

Shallow embedding conventions:
* A filesystem path is its list of segments (`Path.parts`); `Path.str`
  joins them with "/" (the script runs on Windows with "\\", but every
  string test in the source is separator-agnostic: the ignore rule checks
  both separators, and the tested suffixes contain no separator).
* File contents are byte lists (`Bytes`); text written by the script is
  encoded by code points (`strBytes`), injective for the ASCII text involved.
* The filesystem is an association list of files plus a list of directories.
* A `World` carries the filesystem, the lines printed so far, and the
  external-process invocations made so far (`ProcCall`).
* External tools (ar, libsplit, elfcnv, analyzeHeadless) are abstracted by an
  `Oracle` giving their observable effect; the Python-side logic around them
  is modelled faithfully.
* Python exceptions that the source lets propagate are modelled with
  `Except`/`Option`: an `Except.error w` result is a raised exception with
  the world as it was at raise time.  `Outcome.ok` is a normal return (the
  script then falls off `__main__` and the process exits with status 0);
  `Outcome.exited c` models `exit(c)`.
-/

namespace DcFidb

/-! ### String helpers (over the character-list model of `String`) -/

/-- True when (`listHasInit pre l`) `pre` is an initial segment of `l`. -/
def listHasInit : List Char → List Char → Bool
  | [], _ => true
  | _ :: _, [] => false
  | a :: as, b :: bs => a == b && listHasInit as bs

/-- True when (`listHasSub sub l`) `sub` occurs contiguously inside `l`. -/
def listHasSub (sub : List Char) : List Char → Bool
  | [] => sub.isEmpty
  | b :: bs => listHasInit sub (b :: bs) || listHasSub sub bs

/-- Python's `sub in s` substring test. -/
def strContains (s sub : String) : Bool := listHasSub sub.data s.data

/-- Python's `s.endswith(post)`. -/
def strEndsWith (s post : String) : Bool :=
  listHasInit post.data.reverse s.data.reverse

/-- Python's `s.lower()` (ASCII, which covers every string the script lowers). -/
def strLower (s : String) : String := ⟨s.data.map Char.toLower⟩

/-! ### Paths -/

/-- A filesystem path, as its list of segments (mirrors `pathlib.Path.parts`). -/
structure Path where
  parts : List String
deriving DecidableEq, Repr

/-- Segment-joining, modelling `str(path)`. -/
def joinParts : List String → String
  | [] => ""
  | [a] => a
  | a :: rest => a ++ "/" ++ joinParts rest

/-- Models `str(path)`. -/
def Path.str (p : Path) : String := joinParts p.parts

/-- Models `path.name`: the final segment. -/
def Path.name (p : Path) : String := (p.parts.getLast?).getD ""

/-- Models `path / n`. -/
def Path.child (p : Path) (n : String) : Path := ⟨p.parts ++ [n]⟩

/-- Index of the last `.` in a character list, if any. -/
def lastDotIdx : List Char → Option Nat
  | [] => none
  | c :: cs =>
    match lastDotIdx cs with
    | some i => some (i + 1)
    | none => if c == '.' then some 0 else none

/-- Models `pathlib`'s suffix of a file name: `name[i:]` for the last dot position
`i` when `0 < i < len(name) - 1`, else the empty string. -/
def suffixOfName (name : String) : String :=
  match lastDotIdx name.data with
  | some i => if 0 < i ∧ i + 1 < name.data.length then ⟨name.data.drop i⟩ else ""
  | none => ""

/-- Models `path.suffix`. -/
def Path.suffix (p : Path) : String := suffixOfName p.name

/-- Models `pathlib`'s `with_suffix` applied to a file name: replace the suffix
(or append when there is none). -/
def withSuffixName (name newSuffix : String) : String :=
  match lastDotIdx name.data with
  | some i =>
    if 0 < i ∧ i + 1 < name.data.length then (⟨name.data.take i⟩ : String) ++ newSuffix
    else name ++ newSuffix
  | none => name ++ newSuffix

/-! ### Bytes, filesystem, world -/

/-- File contents as a byte list. -/
abbrev Bytes := List Nat

/-- Text encoded by code points (the script only writes ASCII). -/
def strBytes (s : String) : Bytes := s.data.map Char.toNat

/-- The bytes of `b"!<arch>"`, the Unix `ar` magic. -/
def arMagic : Bytes := strBytes "!<arch>"

/-- The bytes of `b"\x7fELF"`, the ELF magic. -/
def elfMagic : Bytes := [127, 69, 76, 70]

/-- The filesystem: regular files with contents, and directories. -/
structure FS where
  files : List (Path × Bytes)
  dirs : List Path
deriving DecidableEq

/-- Reading a file's contents; `none` models an unreadable / missing file. -/
def FS.read (fs : FS) (p : Path) : Option Bytes :=
  (fs.files.find? (fun e => decide (e.1 = p))).map (·.2)

/-- Models `path.is_file()`. -/
def FS.isFile (fs : FS) (p : Path) : Bool := (fs.read p).isSome

/-- Models `path.exists()`: a file or a directory is present at `p`. -/
def FS.pathExists (fs : FS) (p : Path) : Bool :=
  fs.isFile p || fs.dirs.any (fun d => decide (d = p))

/-- Writing a file (creating or replacing it). -/
def FS.write (fs : FS) (p : Path) (b : Bytes) : FS :=
  ⟨(p, b) :: fs.files.filter (fun e => !decide (e.1 = p)), fs.dirs⟩

/-- Models `path.mkdir(exist_ok=True)`. -/
def FS.mkdir (fs : FS) (p : Path) : FS :=
  if fs.pathExists p then fs else ⟨fs.files, p :: fs.dirs⟩

/-- An external-process invocation. -/
inductive ProcCall
  /-- An extraction-helper run (`ar`, `libsplit`, or `elfcnv`) on a source path. -/
  | run (tool : String) (src : Path)
  /-- The first or second `analyzeHeadless` invocation. -/
  | analyze (phase : Nat)
deriving DecidableEq, Repr

/-- The observable state of a run: filesystem, printed lines, process calls. -/
structure World where
  fs : FS
  output : List String
  procs : List ProcCall
deriving DecidableEq

/-- Models `print(s)`. -/
def World.print (w : World) (s : String) : World :=
  { w with output := w.output ++ [s] }

/-- Record an external-process invocation. -/
def World.callProc (w : World) (c : ProcCall) : World :=
  { w with procs := w.procs ++ [c] }

/-! ### Filters and classification (source lines 49-129) -/

/-- The `VALID_EXTS` allow-list. -/
def VALID_EXTS : List String := [".o", ".a", ".elf", ".obj", ".lib"]

/-- The `IGNORE_DIRS` list. -/
def IGNORE_DIRS : List String := ["demo", "sample", "vmutool"]

/-- The `IGNORE_FILES` list. -/
def IGNORE_FILES : List String := ["copying.lib"]

/-- Models `should_ignore` (its `DEBUG`-only prints are not modelled). -/
def should_ignore (path : Path) : Bool :=
  let lower := strLower path.str
  if strLower path.name ∈ IGNORE_FILES then true
  else IGNORE_DIRS.any
    (fun d => strContains lower ("/" ++ d ++ "/") || strContains lower ("\\" ++ d ++ "\\"))

/-- Models `is_ar_archive`: `some b` is a normal return of `b`; `none` is the
`IOError` raised when the `.lib` branch cannot open the file. -/
def is_ar_archive (fs : FS) (path : Path) : Option Bool :=
  if strEndsWith (strLower path.str) ".a" || strEndsWith (strLower path.str) ".elf.lib" then
    some true
  else if strEndsWith (strLower path.str) ".lib" then
    (fs.read path).map (fun b => b.take 7 == arMagic)
  else
    some false

/-- Models `is_elf`: total because the source catches `IOError` and returns `False`. -/
def is_elf (fs : FS) (path : Path) : Bool :=
  match fs.read path with
  | some b => b.take 4 == elfMagic
  | none => false

/-- Models `detect_compiler`: `some r` is a normal return of `r` (`None` modelled as
the inner `none`); the outer `none` is an exception escaping from
`is_ar_archive`. -/
def detect_compiler (fs : FS) (path : Path) : Option (Option String) :=
  let parts := path.parts.map strLower
  if "gnu" ∈ parts ∨ "sh-elf" ∈ parts then some (some "gcc")
  else if "codewarrior" ∈ parts ∨ "mwerks" ∈ parts ∨ "mw" ∈ parts then some (some "shc")
  else if strLower path.suffix ∈ [".a", ".o", ".elf"] then some (some "gcc")
  else
    match is_ar_archive fs path with
    | none => none
    | some true => some (some "gcc")
    | some false =>
      if strLower path.suffix ∈ [".lib", ".obj"] then some (some "shc")
      else some none

/-- The variant tokens of `detect_variant`, in source order. -/
def variantTokens : List String := ["m4-single-only", "m4-single", "mnomacsave", "m4", "ml"]

/-- First token present among the path's lowered segments, else "default". -/
def findVariant : List String → List String → String
  | [], _ => "default"
  | t :: ts, parts => if t ∈ parts then t else findVariant ts parts

/-- Models `detect_variant`. -/
def detect_variant (path : Path) : String :=
  findVariant variantTokens (path.parts.map strLower)

/-! ### The archive handler (source lines 132-206) -/

/-- Models `move_tmp_files`, over the temporary directory's remaining files as
(name, contents) pairs: move each into `dst_dir` unless the destination
already exists, in which case warn and skip it (it is not counted). -/
def move_tmp_files (tmp : List (String × Bytes)) (dst_dir : Path) (w : World) :
    Nat × World :=
  match tmp with
  | [] => (0, w)
  | (name, content) :: rest =>
    let dst_file := dst_dir.child name
    if w.fs.pathExists dst_file then
      let w1 := w.print ("[WARN] extraction destination already exists: " ++ dst_file.str)
      move_tmp_files rest dst_dir w1
    else
      let w1 := { w with fs := w.fs.write dst_file content }
      let r := move_tmp_files rest dst_dir w1
      (r.1 + 1, r.2)

/-- The observable behaviour of the external helper programs, which the
source only shells out to.
* `extract tool src` is the temporary directory's contents right after the
  `try` block of `extract_or_copy` (copy the archive in, run `ar`/`libsplit`,
  delete the archive copy), abstracting the subprocess and any partial
  failure it printed.
* `convert name b` is the contents `elfcnv` writes for a `.obj` member.
* `analyzeOk k` is whether the `k`-th `analyzeHeadless` invocation exits 0. -/
structure Oracle where
  extract : String → Path → List (String × Bytes)
  convert : String → Bytes → Bytes
  analyzeOk : Nat → Bool

/-- The names of the configured external tools (the keys of `tools`). -/
def toolNames : List String := ["ar", "libsplit", "elfcnv"]

/-- The post-extraction fixup of the `ar` branch: for every extracted file
whose suffix is not `.elf` but whose content carries the ELF magic, rename it
to the `.elf` suffix (the read-only-attribute `chmod` has no observable
effect in this model and is not tracked). -/
def arFixup (tmp : List (String × Bytes)) : List (String × Bytes) :=
  tmp.map (fun e =>
    if strLower (suffixOfName e.1) ≠ ".elf" ∧ e.2.take 4 == elfMagic then
      (withSuffixName e.1 ".elf", e.2)
    else e)

/-- The post-extraction conversion of the `libsplit` branch: run `elfcnv` on
every `.obj` member (suffix compared case-sensitively, as in the source),
producing a `.elf` sibling and deleting the `.obj`. -/
def convertObjs (oracle : Oracle) : List (String × Bytes) → World →
    List (String × Bytes) × World
  | [], w => ([], w)
  | (n, b) :: rest, w =>
    if suffixOfName n = ".obj" then
      let w1 := w.callProc (.run "elfcnv" ⟨[n]⟩)
      let r := convertObjs oracle rest w1
      ((withSuffixName n ".elf", oracle.convert n b) :: r.1, r.2)
    else
      let r := convertObjs oracle rest w
      ((n, b) :: r.1, r.2)

/-- Models `extract_or_copy`.  `tcfg t` is the configured path and existence flag of
tool `t` (the entries of the mutated global `tools` dict).  `Except.ok (n, w)`
is a normal return of `num_extracted = n`; `Except.error w` is the exception
`shutil.copy2` raises when the source file is unreadable in copy mode. -/
def extract_or_copy (oracle : Oracle) (tcfg : String → Path × Bool)
    (tool : String) (src : Path) (dst_dir : Path) (w : World) :
    Except World (Nat × World) :=
  if tool ∈ toolNames ∧ (tcfg tool).2 = false then
    .ok (0, w.print ("[WARN] " ++ tool ++ " not found: " ++ (tcfg tool).1.str ++
      " - cannot process " ++ src.name))
  else if tool = "copy" then
    let dst_file := dst_dir.child src.name
    if w.fs.pathExists dst_file then
      .ok (0, w.print ("[WARN] destination already exists: " ++ dst_file.str ++
        " - skipping copy"))
    else
      let w1 := w.print ("[COPY] " ++ src.str ++ "\t-> " ++ dst_file.str)
      match w1.fs.read src with
      | none => .error w1
      | some b => .ok (0, { w1 with fs := w1.fs.write dst_file b })
  else if tool = "ar" ∨ tool = "libsplit" then
    let w1 := w.print ("[EXTRACT] Using " ++ tool ++ " to extract " ++ src.name ++
      " in " ++ dst_dir.str)
    let w2 := w1.callProc (.run tool src)
    let tmp := oracle.extract tool src
    let s :=
      if tool = "libsplit" then convertObjs oracle tmp w2
      else (arFixup tmp, w2)
    let r := move_tmp_files s.1 dst_dir s.2
    .ok (r.1, r.2)
  else
    .ok (0, w.print ("[WARN] unknown tool: " ++ tool))

/-! ### Generated configuration artifacts (source lines 209-225) -/

/-- The root-folder line of the generated properties file. -/
def rootFolderLine (compiler : String) : String :=
  "Select root folder containing all libraries (at a depth of 3): = /" ++ compiler

/-- The lines of `CreateMultipleLibraries.properties`. -/
def propsLines (sdk_name compiler : String) : List String :=
  [ "Duplicate Results File OK = duplicates.txt",
    "Do Duplication Detection Do you want to detect duplicates = true",
    "Choose destination FidDB Please choose the destination FidDB for population = " ++
      sdk_name ++ ".fidb",
    rootFolderLine compiler,
    "Common symbols file (optional): OK = common_symbols.txt",
    "Enter LanguageID To Process Language ID: = SuperH4:LE:32:default" ]

/-- Each line followed by a newline. -/
def joinLines : List String → String
  | [] => ""
  | l :: ls => l ++ "\n" ++ joinLines ls

/-- The full text of the generated properties file. -/
def propsContent (sdk_name compiler : String) : String :=
  joinLines (propsLines sdk_name compiler)

/-- Models `Path.touch()`: create an empty file unless the path already exists. -/
def touch (w : World) (p : Path) : World :=
  if w.fs.pathExists p then w else { w with fs := w.fs.write p [] }

/-- Models `create_extra_files`. -/
def create_extra_files (project_root : Path) (sdk_name compiler : String)
    (w : World) : World :=
  let props_path := project_root.child "CreateMultipleLibraries.properties"
  let w1 := { w with fs := w.fs.write props_path (strBytes (propsContent sdk_name compiler)) }
  let w2 := touch w1 (project_root.child "duplicates.txt")
  let w3 := touch w2 (project_root.child "common_symbols.txt")
  w3.print ("[INFO] Created " ++ props_path.str ++
    ", empty duplicates.txt and common_symbols.txt")

/-! ### Main build logic (source lines 231-358) -/

/-- The configured relative path of each external tool (the `tools` dict). -/
def toolRelPath : String → Path
  | "ar" => ⟨["Utl", "Dev", "Gnu", "Bin", "ar.exe"]⟩
  | "libsplit" => ⟨["Utl", "Dev", "Hitachi", "libsplit.exe"]⟩
  | _ => ⟨["Utl", "Dev", "Hitachi", "elfcnv.exe"]⟩

/-- The tool-configuration step at the top of `build_fidb`: resolve each
tool's path relative to the SDK root and record whether it exists. -/
def toolCfg (fs : FS) (sdk_root : Path) : String → Path × Bool :=
  fun t =>
    let p : Path := ⟨sdk_root.parts ++ (toolRelPath t).parts⟩
    (p, fs.pathExists p)

/-- The handling-mode selection of the walk body (source lines 282-284):
start from "copy", switch to "ar" for a recognized archive, else to
"libsplit" for a `.lib` suffix.  `none` is an exception escaping from
`is_ar_archive`. -/
def select_tool (fs : FS) (file : Path) : Option String :=
  match is_ar_archive fs file with
  | none => none
  | some true => some "ar"
  | some false =>
    if strLower file.suffix = ".lib" then some "libsplit" else some "copy"

/-- The state accumulated across the walk: the running count of files
produced, the discovered-compilers set, and the world. -/
structure LoopState where
  copied : Nat
  compilers : List String
  w : World
deriving DecidableEq

/-- Models `compilers.add(c)`.  A Python `set` iterates in an unspecified order;
it is modelled as a duplicate-free list in insertion order. -/
def addCompiler (cs : List String) (c : String) : List String :=
  if c ∈ cs then cs else cs ++ [c]

/-- The lazy destination-directory creation of the walk body (source lines
276-279): in a real run, when the destination directory is missing, print
the MKDIR line and create it. -/
def mkdirStep (debug : Bool) (dst_dir : Path) (w : World) : World :=
  if debug = false ∧ w.fs.pathExists dst_dir = false then
    { w.print ("[MKDIR] " ++ dst_dir.str) with fs := w.fs.mkdir dst_dir }
  else w

/-- The tail of the walk body (source lines 276-289): create the destination
directory if needed, pick the handling mode, and either count the file (dry
run) or delegate to `extract_or_copy` and add its count. -/
def handleFile (oracle : Oracle) (tcfg : String → Path × Bool) (debug : Bool)
    (dst_dir file : Path) (st : LoopState) (compilers : List String) :
    Except World LoopState :=
  let w := mkdirStep debug dst_dir st.w
  match select_tool w.fs file with
  | none => .error w
  | some tool =>
    if debug then
      .ok ⟨st.copied + 1, compilers,
           w.print ("[INFO] " ++ tool ++ ": " ++ file.str ++ "\t-> " ++ dst_dir.str)⟩
    else
      match extract_or_copy oracle tcfg tool file dst_dir w with
      | .error we => .error we
      | .ok (n, w1) => .ok ⟨st.copied + n, compilers, w1⟩

/-- One iteration of the walk of `build_fidb` for a candidate `file`:
filter, classify, then `handleFile`.  `Except.error w` is an exception
raised out of the iteration. -/
def processFile (oracle : Oracle) (tcfg : String → Path × Bool) (debug : Bool)
    (project_root sdk_root : Path) (st : LoopState) (file : Path) :
    Except World LoopState :=
  if ¬ (st.w.fs.isFile file = true ∧ strLower file.suffix ∈ VALID_EXTS ∧
        should_ignore file = false) then
    .ok st
  else
    match detect_compiler st.w.fs file with
    | none => .error st.w
    | some none => .ok { st with w := st.w.print ("[WARN] unknown compiler: " ++ file.str) }
    | some (some compiler) =>
      handleFile oracle tcfg debug
        ⟨project_root.parts ++ [compiler, file.name, detect_variant file, sdk_root.name]⟩
        file st (addCompiler st.compilers compiler)

/-- The walk of `build_fidb` over the (ordered) result of
`sdk_root.rglob("*")`. -/
def runWalk (oracle : Oracle) (tcfg : String → Path × Bool) (debug : Bool)
    (project_root sdk_root : Path) : List Path → LoopState →
    Except World LoopState
  | [], st => .ok st
  | f :: rest, st =>
    match processFile oracle tcfg debug project_root sdk_root st f with
    | .error we => .error we
    | .ok st1 => runWalk oracle tcfg debug project_root sdk_root rest st1

/-- How a `build_fidb` call ends: a normal return (after which the script
falls off `__main__` and the process exits with status 0), a call of
`exit(c)`, or an uncaught exception. -/
inductive Outcome
  | ok
  | exited (code : Nat)
  | raised
deriving DecidableEq, Repr

/-- Everything `build_fidb` does after the walk (source lines 293-358):
the zero-count abort, the two `analyzeHeadless` invocations and the
generated configuration files between them. -/
def finishBuild (oracle : Oracle) (debug : Bool) (fidb_name : String)
    (project_root : Path) (st : LoopState) : Outcome × World :=
  if st.copied = 0 then
    (.exited 1, st.w.print "No SDK files were copied. Check filters or paths.")
  else
    let w := st.w.print ("[+] Copied " ++ toString st.copied ++ " files")
    if debug then
      (.ok, (w.print "DEBUG mode is ENABLED.").print
        "Set DEBUG = False in the script to perform the actual build.")
    else
      let w1 := (w.print "[RUN ] analyzeHeadless (1/2)").callProc (.analyze 1)
      if oracle.analyzeOk 1 = false then
        (.raised, w1.print "[ERROR] analyzeHeadless first run failed")
      else
        let w2 := create_extra_files project_root fidb_name (st.compilers.headD "") w1
        let w3 := (w2.print "[RUN ] analyzeHeadless (2/2)").callProc (.analyze 2)
        if oracle.analyzeOk 2 = false then
          (.raised, w3.print "[ERROR] analyzeHeadless second run failed")
        else
          (.ok, w3.print ("[+] FIDB generated: " ++ fidb_name ++ ".fidb"))

/-- Models `build_fidb`.  `walk` is the ordered file listing `sdk_root.rglob("*")`
would yield; the tool-path mutation of the global `tools` dict is the pure
`toolCfg` computed from the initial filesystem.  The `DEBUG`-branch
diagnostics prints are abbreviated to their fixed lines. -/
def build_fidb (oracle : Oracle) (debug : Bool) (fidb_name : String)
    (sdk_root : Path) (walk : List Path) (w : World) : Outcome × World :=
  let project_root : Path := ⟨["fid_work_" ++ fidb_name]⟩
  let tcfg := toolCfg w.fs sdk_root
  if debug then
    let w1 := (w.print ("[DEBUG] SDK root     : " ++ sdk_root.str)).print
      ("[DEBUG] Project root : " ++ project_root.str)
    match runWalk oracle tcfg true project_root sdk_root walk ⟨0, [], w1⟩ with
    | .error we => (.raised, we)
    | .ok st => finishBuild oracle true fidb_name project_root st
  else if w.fs.pathExists project_root then
    (.ok, w.print (project_root.str ++ " already exists. Remove it before running the script."))
  else
    let w1 := { w with fs := (w.fs.mkdir project_root).mkdir (project_root.child "ghidraproj") }
    match runWalk oracle tcfg false project_root sdk_root walk ⟨0, [], w1⟩ with
    | .error we => (.raised, we)
    | .ok st => finishBuild oracle false fidb_name project_root st

/-! ### Result accessors -/

/-- The count a (non-raising) `extract_or_copy` call returned. -/
def eocCount : Except World (Nat × World) → Option Nat
  | .ok (n, _) => some n
  | .error _ => none

/-- The world after an `extract_or_copy` call, raised or returned. -/
def eocWorld : Except World (Nat × World) → World
  | .ok (_, w) => w
  | .error w => w

/-- The loop state after a non-raising walk step. -/
def stOf : Except World LoopState → Option LoopState
  | .ok st => some st
  | .error _ => none

/-- The world after a walk step, raised or returned. -/
def stWorld : Except World LoopState → World
  | .ok st => st.w
  | .error w => w

/-! ### Filesystem lemmas -/

theorem FS.read_write_self (fs : FS) (p : Path) (b : Bytes) :
    (fs.write p b).read p = some b := by
  simp [FS.read, FS.write, List.find?]

theorem find_filter_ne (files : List (Path × Bytes)) (p q : Path) (h : q ≠ p) :
    (files.filter (fun e => !decide (e.1 = p))).find? (fun e => decide (e.1 = q)) =
      files.find? (fun e => decide (e.1 = q)) := by
  induction files with
  | nil => rfl
  | cons e rest ih =>
    by_cases h1 : e.1 = p
    · have h2 : ¬ (p = q) := fun hq => h hq.symm
      simp [List.filter_cons, List.find?_cons, h1, h2, ih]
    · by_cases h2 : e.1 = q
      · simp [List.filter_cons, List.find?_cons, h1, h2, h, ih]
      · simp [List.filter_cons, List.find?_cons, h1, h2, ih]

theorem FS.read_write_ne (fs : FS) (p q : Path) (b : Bytes) (h : q ≠ p) :
    (fs.write p b).read q = fs.read q := by
  have h1 : ¬ (p = q) := fun hq => h hq.symm
  simp [FS.read, FS.write, List.find?_cons, h1, find_filter_ne fs.files p q h]

theorem FS.pathExists_write_of (fs : FS) (p q : Path) (b : Bytes)
    (h : fs.pathExists q = true) : (fs.write p b).pathExists q = true := by
  by_cases hpq : q = p
  · subst hpq
    simp [FS.pathExists, FS.isFile, FS.read_write_self]
  · simp only [FS.pathExists, FS.isFile, FS.read_write_ne fs p q b hpq] at *
    exact h

theorem FS.pathExists_write_ne (fs : FS) (p q : Path) (b : Bytes) (h : q ≠ p) :
    (fs.write p b).pathExists q = fs.pathExists q := by
  simp only [FS.pathExists, FS.isFile]
  rw [FS.read_write_ne fs p q b h]
  rfl

theorem Path.child_inj (d : Path) (n m : String) :
    d.child n = d.child m ↔ n = m := by
  simp [Path.child, Path.mk.injEq]

/-! ### Theorems for the pure classifiers -/

/-- C4: for every input path with a segment case-insensitively equal to
"gnu" or "sh-elf", `detect_compiler` returns "gcc" regardless of the
file's extension or content (the quantification over `fs` covers content;
the folder rule fires before the extension and magic-byte rules). -/
theorem c4_folder_marker_forces_gcc (fs : FS) (p : Path)
    (h : "gnu" ∈ p.parts.map strLower ∨ "sh-elf" ∈ p.parts.map strLower) :
    detect_compiler fs p = some (some "gcc") := by
  simp only [detect_compiler]
  rw [if_pos h]

theorem c4_witness :
    ("gnu" ∈ (Path.parts ⟨["sdk", "GNU", "x.lib"]⟩).map strLower ∨
      "sh-elf" ∈ (Path.parts ⟨["sdk", "GNU", "x.lib"]⟩).map strLower) ∧
    detect_compiler ⟨[], []⟩ ⟨["sdk", "GNU", "x.lib"]⟩ = some (some "gcc") :=
  ⟨by decide, c4_folder_marker_forces_gcc ⟨[], []⟩ ⟨["sdk", "GNU", "x.lib"]⟩ (by decide)⟩

/-- C5: a file recognized as a Unix-style archive (`is_ar_archive` returns
`True`) makes the walk select the "ar" handling mode — never "copy" and
never "libsplit" — and a `.lib` file not recognized as an archive selects
the "libsplit" mode. -/
theorem c5_archive_selects_ar (fs : FS) (file : Path) :
    (is_ar_archive fs file = some true → select_tool fs file = some "ar") ∧
    (is_ar_archive fs file = some false → strLower file.suffix = ".lib" →
      select_tool fs file = some "libsplit") := by
  constructor
  · intro h
    simp [select_tool, h]
  · intro h h2
    simp [select_tool, h, h2]

theorem c5_witness :
    (is_ar_archive ⟨[], []⟩ ⟨["sdk", "libx.a"]⟩ = some true ∧
      select_tool ⟨[], []⟩ ⟨["sdk", "libx.a"]⟩ = some "ar") ∧
    (is_ar_archive ⟨[(⟨["sdk", "y.lib"]⟩, [0, 1])], []⟩ ⟨["sdk", "y.lib"]⟩ = some false ∧
      select_tool ⟨[(⟨["sdk", "y.lib"]⟩, [0, 1])], []⟩ ⟨["sdk", "y.lib"]⟩ = some "libsplit") :=
  ⟨⟨by decide, (c5_archive_selects_ar ⟨[], []⟩ ⟨["sdk", "libx.a"]⟩).1 (by decide)⟩,
   ⟨by decide,
    (c5_archive_selects_ar ⟨[(⟨["sdk", "y.lib"]⟩, [0, 1])], []⟩ ⟨["sdk", "y.lib"]⟩).2
      (by decide) (by decide)⟩⟩

/-- C8: `is_ar_archive` returns `True` exactly when the lowered path string
ends in ".a" or ".elf.lib", or it ends in ".lib" and the first 7 bytes of
the file equal `b"!<arch>"`; on every other (readable where it must read)
path it returns `False`; and for ".a"/".elf.lib" endings the result is the
same over any two filesystems — the content is never read. -/
theorem c8_is_ar_archive_characterization (fs fs' : FS) (p : Path)
    (hread : strEndsWith (strLower p.str) ".a" = false →
      strEndsWith (strLower p.str) ".elf.lib" = false →
      strEndsWith (strLower p.str) ".lib" = true → (fs.read p).isSome = true) :
    (is_ar_archive fs p = some true ↔
      ((strEndsWith (strLower p.str) ".a" = true ∨
        strEndsWith (strLower p.str) ".elf.lib" = true) ∨
       (strEndsWith (strLower p.str) ".lib" = true ∧
        ∃ b, fs.read p = some b ∧ b.take 7 = arMagic))) ∧
    (is_ar_archive fs p = some true ∨ is_ar_archive fs p = some false) ∧
    ((strEndsWith (strLower p.str) ".a" = true ∨
      strEndsWith (strLower p.str) ".elf.lib" = true) →
      is_ar_archive fs p = is_ar_archive fs' p) := by
  by_cases ha : strEndsWith (strLower p.str) ".a" = true
  · simp [is_ar_archive, ha]
  · by_cases hel : strEndsWith (strLower p.str) ".elf.lib" = true
    · simp [is_ar_archive, ha, hel]
    · by_cases hl : strEndsWith (strLower p.str) ".lib" = true
      · have hs := hread (by simpa using ha) (by simpa using hel) hl
        obtain ⟨b, hb⟩ := Option.isSome_iff_exists.mp hs
        have hres : is_ar_archive fs p = some (b.take 7 == arMagic) := by
          simp [is_ar_archive, ha, hel, hl, hb]
        refine ⟨?_, ?_, ?_⟩
        · rw [hres]
          constructor
          · intro h
            have h2 : (b.take 7 == arMagic) = true := Option.some.inj h
            exact Or.inr ⟨hl, b, hb, by simpa using h2⟩
          · rintro (hc | ⟨-, b', hb', ht⟩)
            · rcases hc with hc | hc
              · exact absurd hc ha
              · exact absurd hc hel
            · rw [hb] at hb'
              have h3 : b = b' := Option.some.inj hb'
              subst h3
              simp [ht]
        · rw [hres]
          rcases Bool.eq_false_or_eq_true (b.take 7 == arMagic) with h | h <;> simp [h]
        · intro hc
          rcases hc with hc | hc
          · exact absurd hc ha
          · exact absurd hc hel
      · simp [is_ar_archive, ha, hel, hl]

theorem c8_witness :
    is_ar_archive ⟨[(⟨["x.lib"]⟩, strBytes "!<arch>" ++ [1, 2])], []⟩ ⟨["x.lib"]⟩ = some true ∧
    is_ar_archive ⟨[(⟨["y.a"]⟩, [0])], []⟩ ⟨["y.a"]⟩ = is_ar_archive ⟨[], []⟩ ⟨["y.a"]⟩ :=
  ⟨(c8_is_ar_archive_characterization ⟨[(⟨["x.lib"]⟩, strBytes "!<arch>" ++ [1, 2])], []⟩
      ⟨[], []⟩ ⟨["x.lib"]⟩ (by decide)).1.mpr
    (Or.inr ⟨by decide, strBytes "!<arch>" ++ [1, 2], by decide, by decide⟩),
   (c8_is_ar_archive_characterization ⟨[(⟨["y.a"]⟩, [0])], []⟩ ⟨[], []⟩ ⟨["y.a"]⟩
      (by decide)).2.2 (Or.inl (by decide))⟩

/-- C10: `is_elf` is total over unreadable inputs — when the file cannot be
opened or read it returns `False` (the source catches `IOError`) — and on a
readable file it returns `True` exactly when the first 4 bytes are the ELF
magic. -/
theorem c10_is_elf_total (fs : FS) (p : Path) :
    (fs.read p = none → is_elf fs p = false) ∧
    (∀ b, fs.read p = some b → is_elf fs p = (b.take 4 == elfMagic)) := by
  constructor
  · intro h
    simp [is_elf, h]
  · intro b h
    simp [is_elf, h]

theorem c10_witness :
    is_elf ⟨[], []⟩ ⟨["gone.o"]⟩ = false ∧
    is_elf ⟨[(⟨["a.elf"]⟩, [127, 69, 76, 70, 9])], []⟩ ⟨["a.elf"]⟩ =
      (([127, 69, 76, 70, 9] : Bytes).take 4 == elfMagic) :=
  ⟨(c10_is_elf_total ⟨[], []⟩ ⟨["gone.o"]⟩).1 (by decide),
   (c10_is_elf_total ⟨[(⟨["a.elf"]⟩, [127, 69, 76, 70, 9])], []⟩ ⟨["a.elf"]⟩).2
     [127, 69, 76, 70, 9] (by decide)⟩

/-- C1 (code bug): in copy mode with a fresh destination and a readable
source, `extract_or_copy` performs the copy but returns 0 — `num_extracted`
is never incremented in the copy branch — and the walk's accumulated total
(`copied`) therefore does not count the copied file, contradicting the
claimed count of 1. -/
theorem c1_copy_not_counted :
    eocCount (extract_or_copy ⟨fun _ _ => [], fun _ b => b, fun _ => true⟩
      (fun t => (toolRelPath t, true)) "copy" ⟨["sdk", "mw", "y.obj"]⟩
      ⟨["dst"]⟩ ⟨⟨[(⟨["sdk", "mw", "y.obj"]⟩, [0, 1])], []⟩, [], []⟩) = some 0 ∧
    (eocWorld (extract_or_copy ⟨fun _ _ => [], fun _ b => b, fun _ => true⟩
      (fun t => (toolRelPath t, true)) "copy" ⟨["sdk", "mw", "y.obj"]⟩
      ⟨["dst"]⟩ ⟨⟨[(⟨["sdk", "mw", "y.obj"]⟩, [0, 1])], []⟩, [], []⟩)).fs.read
        ⟨["dst", "y.obj"]⟩ = some [0, 1] ∧
    (stOf (processFile ⟨fun _ _ => [], fun _ b => b, fun _ => true⟩
      (fun t => (toolRelPath t, true)) false ⟨["pr"]⟩ ⟨["sdk"]⟩
      ⟨0, [], ⟨⟨[(⟨["sdk", "mw", "y.obj"]⟩, [0, 1])], []⟩, [], []⟩⟩
      ⟨["sdk", "mw", "y.obj"]⟩)).map LoopState.copied = some 0 ∧
    (stWorld (processFile ⟨fun _ _ => [], fun _ b => b, fun _ => true⟩
      (fun t => (toolRelPath t, true)) false ⟨["pr"]⟩ ⟨["sdk"]⟩
      ⟨0, [], ⟨⟨[(⟨["sdk", "mw", "y.obj"]⟩, [0, 1])], []⟩, [], []⟩⟩
      ⟨["sdk", "mw", "y.obj"]⟩)).fs.read
        ⟨["pr", "shc", "y.obj", "default", "sdk", "y.obj"]⟩ = some [0, 1] := by
  refine ⟨?_, ?_, ?_, ?_⟩ <;> decide

/-! ### Lemmas about `move_tmp_files` -/

theorem move_tmp_files_preserves (tmp : List (String × Bytes)) (dst_dir : Path)
    (w : World) (p : Path) (h : w.fs.pathExists p = true) :
    (move_tmp_files tmp dst_dir w).2.fs.read p = w.fs.read p ∧
      (move_tmp_files tmp dst_dir w).2.fs.pathExists p = true := by
  induction tmp generalizing w with
  | nil => exact ⟨rfl, h⟩
  | cons e rest ih =>
    obtain ⟨name, content⟩ := e
    simp only [move_tmp_files]
    by_cases hx : w.fs.pathExists (dst_dir.child name) = true
    · rw [if_pos hx]
      exact ih (w.print _) h
    · rw [if_neg hx]
      have hne : p ≠ dst_dir.child name := by
        intro hp
        rw [hp] at h
        exact hx h
      have h1 : ({ w with fs := w.fs.write (dst_dir.child name) content } : World).fs.read p
          = w.fs.read p := FS.read_write_ne w.fs (dst_dir.child name) p content hne
      have h2 : ({ w with fs := w.fs.write (dst_dir.child name) content } : World).fs.pathExists p
          = true := FS.pathExists_write_of w.fs (dst_dir.child name) p content h
      have ih2 := ih { w with fs := w.fs.write (dst_dir.child name) content } h2
      exact ⟨by rw [ih2.1, h1], ih2.2⟩

theorem move_tmp_files_output_mono (tmp : List (String × Bytes)) (dst_dir : Path)
    (w : World) (s : String) (h : s ∈ w.output) :
    s ∈ (move_tmp_files tmp dst_dir w).2.output := by
  induction tmp generalizing w with
  | nil => exact h
  | cons e rest ih =>
    obtain ⟨name, content⟩ := e
    simp only [move_tmp_files]
    by_cases hx : w.fs.pathExists (dst_dir.child name) = true
    · rw [if_pos hx]
      exact ih (w.print _) (by simp [World.print, List.mem_append, h])
    · rw [if_neg hx]
      exact ih _ h

theorem move_tmp_files_warns (tmp : List (String × Bytes)) (dst_dir : Path)
    (w : World) (n : String) (b : Bytes) (hmem : (n, b) ∈ tmp)
    (h : w.fs.pathExists (dst_dir.child n) = true) :
    ("[WARN] extraction destination already exists: " ++ (dst_dir.child n).str) ∈
      (move_tmp_files tmp dst_dir w).2.output := by
  induction tmp generalizing w with
  | nil => cases hmem
  | cons e rest ih =>
    obtain ⟨name, content⟩ := e
    simp only [move_tmp_files]
    rcases List.mem_cons.mp hmem with he | he
    · have hn : name = n := by
        have := congrArg Prod.fst he.symm
        simpa using this
      subst hn
      rw [if_pos h]
      exact move_tmp_files_output_mono rest dst_dir _ _ (by simp [World.print])
    · by_cases hx : w.fs.pathExists (dst_dir.child name) = true
      · rw [if_pos hx]
        exact ih (w.print _) he h
      · rw [if_neg hx]
        exact ih _ he (FS.pathExists_write_of w.fs (dst_dir.child name) (dst_dir.child n)
          content h)

theorem move_tmp_files_count (tmp : List (String × Bytes)) (dst_dir : Path)
    (w : World) (hnd : (tmp.map Prod.fst).Nodup) :
    (move_tmp_files tmp dst_dir w).1 =
      (tmp.filter (fun e => !w.fs.pathExists (dst_dir.child e.1))).length := by
  induction tmp generalizing w with
  | nil => rfl
  | cons e rest ih =>
    obtain ⟨name, content⟩ := e
    have hnd1 : (rest.map Prod.fst).Nodup := (List.nodup_cons.mp hnd).2
    have hnin : name ∉ rest.map Prod.fst := (List.nodup_cons.mp hnd).1
    simp only [move_tmp_files]
    by_cases hx : w.fs.pathExists (dst_dir.child name) = true
    · rw [if_pos hx]
      rw [ih (w.print _) hnd1]
      simp [List.filter_cons, hx, World.print]
    · rw [if_neg hx]
      have hcong : ∀ e ∈ rest,
          (!({ w with fs := w.fs.write (dst_dir.child name) content } : World).fs.pathExists
            (dst_dir.child e.1)) = (!w.fs.pathExists (dst_dir.child e.1)) := by
        intro e he
        have hne : dst_dir.child e.1 ≠ dst_dir.child name := by
          intro hc
          exact hnin (((Path.child_inj dst_dir e.1 name).mp hc) ▸ List.mem_map_of_mem Prod.fst he)
        rw [FS.pathExists_write_ne w.fs (dst_dir.child name) (dst_dir.child e.1) content hne]
      rw [ih _ hnd1, List.filter_congr hcong]
      simp [List.filter_cons, hx]

/-! ### The no-overwrite and idempotence claims -/

/-- C2: no operation overwrites an existing destination file.  In copy mode
an existing target makes `extract_or_copy` only emit a warning — the
filesystem (hence the target's content) is untouched and the call returns 0.
In `move_tmp_files` every entry whose target exists keeps its old content,
produces the warning line, and is excluded from the moved count. -/
theorem c2_never_overwrite :
    (∀ (o : Oracle) (tc : String → Path × Bool) (src dst_dir : Path) (w : World),
       w.fs.pathExists (dst_dir.child src.name) = true →
       extract_or_copy o tc "copy" src dst_dir w =
         .ok (0, w.print ("[WARN] destination already exists: " ++
           (dst_dir.child src.name).str ++ " - skipping copy"))) ∧
    (∀ (tmp : List (String × Bytes)) (dst_dir : Path) (w : World) (n : String) (b : Bytes),
       (tmp.map Prod.fst).Nodup → (n, b) ∈ tmp →
       w.fs.pathExists (dst_dir.child n) = true →
       (move_tmp_files tmp dst_dir w).2.fs.read (dst_dir.child n) =
           w.fs.read (dst_dir.child n) ∧
         ("[WARN] extraction destination already exists: " ++ (dst_dir.child n).str) ∈
           (move_tmp_files tmp dst_dir w).2.output ∧
         (move_tmp_files tmp dst_dir w).1 =
           (tmp.filter (fun e => !w.fs.pathExists (dst_dir.child e.1))).length) := by
  constructor
  · intro o tc src dst_dir w h
    have hnot : ¬ (("copy" : String) ∈ toolNames ∧ (tc "copy").2 = false) := by
      intro hc
      exact absurd hc.1 (by decide)
    simp [extract_or_copy, hnot, h]
  · intro tmp dst_dir w n b hnd hmem h
    exact ⟨(move_tmp_files_preserves tmp dst_dir w (dst_dir.child n) h).1,
      move_tmp_files_warns tmp dst_dir w n b hmem h,
      move_tmp_files_count tmp dst_dir w hnd⟩

theorem c2_witness :
    (extract_or_copy ⟨fun _ _ => [], fun _ b => b, fun _ => true⟩
        (fun t => (toolRelPath t, true)) "copy" ⟨["sdk", "x.o"]⟩ ⟨["dst"]⟩
        ⟨⟨[(⟨["dst", "x.o"]⟩, [7])], []⟩, [], []⟩ =
      .ok (0, World.print ⟨⟨[(⟨["dst", "x.o"]⟩, [7])], []⟩, [], []⟩
        ("[WARN] destination already exists: " ++
          (Path.child ⟨["dst"]⟩ "x.o").str ++ " - skipping copy"))) ∧
    ((move_tmp_files [("x.o", [9])] ⟨["dst"]⟩
        ⟨⟨[(⟨["dst", "x.o"]⟩, [7])], []⟩, [], []⟩).2.fs.read (Path.child ⟨["dst"]⟩ "x.o") =
        (⟨⟨[(⟨["dst", "x.o"]⟩, [7])], []⟩, [], []⟩ : World).fs.read (Path.child ⟨["dst"]⟩ "x.o") ∧
      ("[WARN] extraction destination already exists: " ++ (Path.child ⟨["dst"]⟩ "x.o").str) ∈
        (move_tmp_files [("x.o", [9])] ⟨["dst"]⟩
          ⟨⟨[(⟨["dst", "x.o"]⟩, [7])], []⟩, [], []⟩).2.output ∧
      (move_tmp_files [("x.o", [9])] ⟨["dst"]⟩
          ⟨⟨[(⟨["dst", "x.o"]⟩, [7])], []⟩, [], []⟩).1 =
        (([("x.o", [9])] : List (String × Bytes)).filter
          (fun e => !(⟨⟨[(⟨["dst", "x.o"]⟩, [7])], []⟩, [], []⟩ : World).fs.pathExists
            (Path.child ⟨["dst"]⟩ e.1))).length) :=
  ⟨c2_never_overwrite.1 ⟨fun _ _ => [], fun _ b => b, fun _ => true⟩
      (fun t => (toolRelPath t, true)) ⟨["sdk", "x.o"]⟩ ⟨["dst"]⟩
      ⟨⟨[(⟨["dst", "x.o"]⟩, [7])], []⟩, [], []⟩ (by decide),
   c2_never_overwrite.2 [("x.o", [9])] ⟨["dst"]⟩
      ⟨⟨[(⟨["dst", "x.o"]⟩, [7])], []⟩, [], []⟩ "x.o" [9] (by decide) (by decide) (by decide)⟩

/-- C7: copy mode is idempotent.  With a readable source and a fresh
destination, the first call copies the file; the second call returns
normally (no exception), emits only the already-exists warning, changes
no file, and the destination holds exactly one copy (the source's bytes at
the target path, every other path unchanged). -/
theorem c7_copy_idempotent (o : Oracle) (tc : String → Path × Bool)
    (src dst_dir : Path) (w : World) (b : Bytes)
    (hsrc : w.fs.read src = some b)
    (hdst : w.fs.pathExists (dst_dir.child src.name) = false) :
    ∃ w1 : World,
      extract_or_copy o tc "copy" src dst_dir w = .ok (0, w1) ∧
      w1.fs.read (dst_dir.child src.name) = some b ∧
      (∀ p, p ≠ dst_dir.child src.name → w1.fs.read p = w.fs.read p) ∧
      extract_or_copy o tc "copy" src dst_dir w1 =
        .ok (0, w1.print ("[WARN] destination already exists: " ++
          (dst_dir.child src.name).str ++ " - skipping copy")) := by
  have hnot : ¬ (("copy" : String) ∈ toolNames ∧ (tc "copy").2 = false) := by
    intro hc
    exact absurd hc.1 (by decide)
  refine ⟨{ w.print ("[COPY] " ++ src.str ++ "\t-> " ++ (dst_dir.child src.name).str) with
      fs := w.fs.write (dst_dir.child src.name) b }, ?_, ?_, ?_, ?_⟩
  · simp [extract_or_copy, hnot, hdst, World.print]
    rw [hsrc]
  · exact FS.read_write_self w.fs (dst_dir.child src.name) b
  · intro p hp
    exact FS.read_write_ne w.fs (dst_dir.child src.name) p b hp
  · have hex : ({ w.print ("[COPY] " ++ src.str ++ "\t-> " ++ (dst_dir.child src.name).str) with
        fs := w.fs.write (dst_dir.child src.name) b } : World).fs.pathExists
        (dst_dir.child src.name) = true := by
      simp [FS.pathExists, FS.isFile, FS.read_write_self]
    simp [extract_or_copy, hnot, hex]

theorem c7_witness :
    ∃ w1 : World,
      extract_or_copy ⟨fun _ _ => [], fun _ b => b, fun _ => true⟩
          (fun t => (toolRelPath t, true)) "copy" ⟨["sdk", "x.o"]⟩ ⟨["dst"]⟩
          ⟨⟨[(⟨["sdk", "x.o"]⟩, [1, 2])], []⟩, [], []⟩ = .ok (0, w1) ∧
      w1.fs.read (Path.child ⟨["dst"]⟩ (Path.name ⟨["sdk", "x.o"]⟩)) = some [1, 2] ∧
      (∀ p, p ≠ Path.child ⟨["dst"]⟩ (Path.name ⟨["sdk", "x.o"]⟩) →
        w1.fs.read p = (⟨⟨[(⟨["sdk", "x.o"]⟩, [1, 2])], []⟩, [], []⟩ : World).fs.read p) ∧
      extract_or_copy ⟨fun _ _ => [], fun _ b => b, fun _ => true⟩
          (fun t => (toolRelPath t, true)) "copy" ⟨["sdk", "x.o"]⟩ ⟨["dst"]⟩ w1 =
        .ok (0, w1.print ("[WARN] destination already exists: " ++
          (Path.child ⟨["dst"]⟩ (Path.name ⟨["sdk", "x.o"]⟩)).str ++ " - skipping copy")) :=
  c7_copy_idempotent ⟨fun _ _ => [], fun _ b => b, fun _ => true⟩
    (fun t => (toolRelPath t, true)) ⟨["sdk", "x.o"]⟩ ⟨["dst"]⟩
    ⟨⟨[(⟨["sdk", "x.o"]⟩, [1, 2])], []⟩, [], []⟩ [1, 2] (by decide) (by decide)

/-! ### The existing-work-directory abort (claim C3) -/

/-- C3 corrected (the abort exists and changes nothing, but the run does not
end with a non-zero status): at a concrete world whose work directory
`fid_work_db1` already exists, the real (non-dry-run) `build_fidb` returns
normally (`Outcome.ok`, so the script falls off `__main__` and the process
exits 0 — not the non-zero status the claim asserts), leaving the
filesystem untouched and invoking no subprocess. -/
theorem c3_counterexample :
    (build_fidb ⟨fun _ _ => [], fun _ b => b, fun _ => true⟩ false "db1" ⟨["sdk"]⟩ []
      ⟨⟨[], [⟨["fid_work_db1"]⟩]⟩, [], []⟩).1 = Outcome.ok ∧
    (build_fidb ⟨fun _ _ => [], fun _ b => b, fun _ => true⟩ false "db1" ⟨["sdk"]⟩ []
      ⟨⟨[], [⟨["fid_work_db1"]⟩]⟩, [], []⟩).2.fs = ⟨[], [⟨["fid_work_db1"]⟩]⟩ ∧
    (build_fidb ⟨fun _ _ => [], fun _ b => b, fun _ => true⟩ false "db1" ⟨["sdk"]⟩ []
      ⟨⟨[], [⟨["fid_work_db1"]⟩]⟩, [], []⟩).2.procs = [] := by
  refine ⟨?_, ?_, ?_⟩ <;> decide

/-- C3 as amended: when the work directory already exists at the start of a
real (non-dry-run) build, `build_fidb` aborts before making any filesystem
change — no directory created, no file copied or extracted, neither
analysis-tool invocation — printing only the remove-it-first message, and
returns normally (the process then exits with status 0, not non-zero). -/
theorem c3_existing_workdir_aborts_unchanged (oracle : Oracle) (fidb_name : String)
    (sdk_root : Path) (walk : List Path) (w : World)
    (h : w.fs.pathExists ⟨["fid_work_" ++ fidb_name]⟩ = true) :
    build_fidb oracle false fidb_name sdk_root walk w =
      (.ok, w.print (("fid_work_" ++ fidb_name) ++
        " already exists. Remove it before running the script.")) := by
  simp [build_fidb, h, Path.str, joinParts]

theorem c3_witness :
    build_fidb ⟨fun _ _ => [], fun _ b => b, fun _ => false⟩ false "db2" ⟨["sdk"]⟩
      [⟨["sdk", "gnu", "a.o"]⟩] ⟨⟨[(⟨["fid_work_db2"]⟩, [5])], []⟩, [], []⟩ =
      (.ok, World.print ⟨⟨[(⟨["fid_work_db2"]⟩, [5])], []⟩, [], []⟩
        (("fid_work_" ++ "db2") ++ " already exists. Remove it before running the script.")) :=
  c3_existing_workdir_aborts_unchanged ⟨fun _ _ => [], fun _ b => b, fun _ => false⟩
    "db2" ⟨["sdk"]⟩ [⟨["sdk", "gnu", "a.o"]⟩]
    ⟨⟨[(⟨["fid_work_db2"]⟩, [5])], []⟩, [], []⟩ (by decide)

/-! ### The walk performs no analysis-tool invocation -/

theorem move_tmp_files_procs (tmp : List (String × Bytes)) (dst_dir : Path) (w : World) :
    (move_tmp_files tmp dst_dir w).2.procs = w.procs := by
  induction tmp generalizing w with
  | nil => rfl
  | cons e rest ih =>
    obtain ⟨name, content⟩ := e
    simp only [move_tmp_files]
    by_cases hx : w.fs.pathExists (dst_dir.child name) = true
    · rw [if_pos hx, ih]
      rfl
    · rw [if_neg hx, ih]

theorem convertObjs_procs_analyze (o : Oracle) (tmp : List (String × Bytes))
    (w : World) (k : Nat)
    (h : ProcCall.analyze k ∈ (convertObjs o tmp w).2.procs) :
    ProcCall.analyze k ∈ w.procs := by
  induction tmp generalizing w with
  | nil => exact h
  | cons e rest ih =>
    obtain ⟨n, b⟩ := e
    simp only [convertObjs] at h
    by_cases hs : suffixOfName n = ".obj"
    · rw [if_pos hs] at h
      have h1 := ih _ h
      simp only [World.callProc, List.mem_append] at h1
      rcases h1 with h1 | h1
      · exact h1
      · simp at h1
    · rw [if_neg hs] at h
      exact ih _ h

theorem eoc_procs_analyze (o : Oracle) (tc : String → Path × Bool) (tool : String)
    (src dst_dir : Path) (w : World) (k : Nat)
    (h : ProcCall.analyze k ∈ (eocWorld (extract_or_copy o tc tool src dst_dir w)).procs) :
    ProcCall.analyze k ∈ w.procs := by
  by_cases h1 : tool ∈ toolNames ∧ (tc tool).2 = false
  · simpa [extract_or_copy, h1, eocWorld, World.print] using h
  · by_cases h2 : tool = "copy"
    · subst h2
      by_cases hx : w.fs.pathExists (dst_dir.child src.name) = true
      · simpa [extract_or_copy, h1, eocWorld, World.print, hx] using h
      · rcases hr : w.fs.read src with _ | b
        · simpa [extract_or_copy, h1, eocWorld, World.print, hx, hr] using h
        · simpa [extract_or_copy, h1, eocWorld, World.print, hx, hr] using h
    · by_cases h3 : tool = "ar" ∨ tool = "libsplit"
      · by_cases h4 : tool = "libsplit"
        · simp only [extract_or_copy, if_neg h1, if_neg h2, if_pos h3, if_pos h4,
            eocWorld] at h
          rw [move_tmp_files_procs] at h
          have h5 := convertObjs_procs_analyze o _ _ k h
          simp only [World.callProc, World.print, List.mem_append] at h5
          rcases h5 with h5 | h5
          · exact h5
          · simp at h5
        · simp only [extract_or_copy, if_neg h1, if_neg h2, if_pos h3, if_neg h4,
            eocWorld] at h
          rw [move_tmp_files_procs] at h
          simp only [World.callProc, World.print, List.mem_append] at h
          rcases h with h | h
          · exact h
          · simp at h
      · simpa [extract_or_copy, h1, h2, h3, eocWorld, World.print] using h

theorem mkdirStep_procs (debug : Bool) (dst_dir : Path) (w : World) :
    (mkdirStep debug dst_dir w).procs = w.procs := by
  unfold mkdirStep
  split <;> rfl

theorem handleFile_procs_analyze (o : Oracle) (tc : String → Path × Bool)
    (debug : Bool) (dst_dir f : Path) (st : LoopState) (cs : List String) (k : Nat)
    (h : ProcCall.analyze k ∈ (stWorld (handleFile o tc debug dst_dir f st cs)).procs) :
    ProcCall.analyze k ∈ st.w.procs := by
  unfold handleFile at h
  simp only [] at h
  rcases hsel : select_tool (mkdirStep debug dst_dir st.w).fs f with _ | tool
  · simp only [hsel] at h
    rw [show (stWorld (.error (mkdirStep debug dst_dir st.w))).procs = st.w.procs from
      mkdirStep_procs debug dst_dir st.w] at h
    exact h
  · simp only [hsel] at h
    by_cases hd : debug = true
    · rw [if_pos hd] at h
      simp only [stWorld, World.print] at h
      rw [mkdirStep_procs] at h
      exact h
    · rw [if_neg hd] at h
      have h2 : ProcCall.analyze k ∈
          (eocWorld (extract_or_copy o tc tool f dst_dir (mkdirStep debug dst_dir st.w))).procs := by
        rcases he : extract_or_copy o tc tool f dst_dir (mkdirStep debug dst_dir st.w)
          with we | ⟨n, w1⟩
        · rw [he] at h
          simpa [eocWorld] using h
        · rw [he] at h
          simpa [eocWorld] using h
      have h3 := eoc_procs_analyze o tc tool f dst_dir (mkdirStep debug dst_dir st.w) k h2
      rw [mkdirStep_procs] at h3
      exact h3

theorem processFile_procs_analyze (o : Oracle) (tc : String → Path × Bool)
    (debug : Bool) (pr sdk : Path) (st : LoopState) (f : Path) (k : Nat)
    (h : ProcCall.analyze k ∈ (stWorld (processFile o tc debug pr sdk st f)).procs) :
    ProcCall.analyze k ∈ st.w.procs := by
  unfold processFile at h
  split at h
  · exact h
  · split at h
    · exact h
    · simpa [stWorld, World.print] using h
    · exact handleFile_procs_analyze o tc debug _ f st _ k h

theorem runWalk_procs_analyze (o : Oracle) (tc : String → Path × Bool)
    (debug : Bool) (pr sdk : Path) (walk : List Path) (st : LoopState) (k : Nat)
    (h : ProcCall.analyze k ∈ (stWorld (runWalk o tc debug pr sdk walk st)).procs) :
    ProcCall.analyze k ∈ st.w.procs := by
  induction walk generalizing st with
  | nil => exact h
  | cons f rest ih =>
    simp only [runWalk] at h
    rcases hpf : processFile o tc debug pr sdk st f with we | st1
    · rw [hpf] at h
      exact processFile_procs_analyze o tc debug pr sdk st f k (by rw [hpf]; exact h)
    · rw [hpf] at h
      have h1 := ih st1 h
      exact processFile_procs_analyze o tc debug pr sdk st f k (by rw [hpf]; exact h1)

/-- C6: when the accumulated count of produced files is zero after the whole
walk, the real (non-dry-run) `build_fidb` prints the report line and
terminates the process with exit status 1, and neither `analyzeHeadless`
invocation has happened (the final world contains no analyze event when the
initial one had none — the walk itself only ever invokes extraction
helpers). -/
theorem c6_zero_copied_exits_one (oracle : Oracle) (fidb_name : String)
    (sdk_root : Path) (walk : List Path) (w : World) (st : LoopState)
    (hpr : w.fs.pathExists ⟨["fid_work_" ++ fidb_name]⟩ = false)
    (hrun : runWalk oracle (toolCfg w.fs sdk_root) false ⟨["fid_work_" ++ fidb_name]⟩
      sdk_root walk
      ⟨0, [], { w with fs := ((w.fs.mkdir ⟨["fid_work_" ++ fidb_name]⟩).mkdir
        (Path.child ⟨["fid_work_" ++ fidb_name]⟩ "ghidraproj")) }⟩ = .ok st)
    (hzero : st.copied = 0)
    (hinit : ∀ k, ProcCall.analyze k ∉ w.procs) :
    build_fidb oracle false fidb_name sdk_root walk w =
      (.exited 1, st.w.print "No SDK files were copied. Check filters or paths.") ∧
    ∀ k, ProcCall.analyze k ∉
      (st.w.print "No SDK files were copied. Check filters or paths.").procs := by
  constructor
  · simp only [build_fidb]
    rw [if_neg (by simp)]
    rw [hpr]
    simp only [Bool.false_eq_true, if_false, hrun]
    simp [finishBuild, hzero]
  · intro k hk
    have h1 : ProcCall.analyze k ∈ st.w.procs := by
      simpa [World.print] using hk
    have h2 := runWalk_procs_analyze oracle (toolCfg w.fs sdk_root) false
      ⟨["fid_work_" ++ fidb_name]⟩ sdk_root walk
      ⟨0, [], { w with fs := ((w.fs.mkdir ⟨["fid_work_" ++ fidb_name]⟩).mkdir
        (Path.child ⟨["fid_work_" ++ fidb_name]⟩ "ghidraproj")) }⟩ k
      (by rw [hrun]; exact h1)
    exact hinit k h2

theorem c6_witness :
    build_fidb ⟨fun _ _ => [], fun _ b => b, fun _ => true⟩ false "db1" ⟨["sdk"]⟩ []
      ⟨⟨[], []⟩, [], []⟩ =
      (.exited 1, LoopState.w ⟨0, [],
        ⟨⟨[], [⟨["fid_work_db1", "ghidraproj"]⟩, ⟨["fid_work_db1"]⟩]⟩, [], []⟩⟩
        |>.print "No SDK files were copied. Check filters or paths.") ∧
    ProcCall.analyze 1 ∉ (LoopState.w ⟨0, [],
        ⟨⟨[], [⟨["fid_work_db1", "ghidraproj"]⟩, ⟨["fid_work_db1"]⟩]⟩, [], []⟩⟩
        |>.print "No SDK files were copied. Check filters or paths.").procs :=
  ⟨(c6_zero_copied_exits_one ⟨fun _ _ => [], fun _ b => b, fun _ => true⟩ "db1" ⟨["sdk"]⟩
      [] ⟨⟨[], []⟩, [], []⟩
      ⟨0, [], ⟨⟨[], [⟨["fid_work_db1", "ghidraproj"]⟩, ⟨["fid_work_db1"]⟩]⟩, [], []⟩⟩
      (by decide) (by rfl) (by decide) (fun k => List.not_mem_nil _)).1,
   (c6_zero_copied_exits_one ⟨fun _ _ => [], fun _ b => b, fun _ => true⟩ "db1" ⟨["sdk"]⟩
      [] ⟨⟨[], []⟩, [], []⟩
      ⟨0, [], ⟨⟨[], [⟨["fid_work_db1", "ghidraproj"]⟩, ⟨["fid_work_db1"]⟩]⟩, [], []⟩⟩
      (by decide) (by rfl) (by decide) (fun k => List.not_mem_nil _)).2 1⟩

/-! ### The discovered-compilers set holds only the two toolchain labels -/

theorem detect_compiler_range (fs : FS) (p : Path) (c : String)
    (h : detect_compiler fs p = some (some c)) : c = "gcc" ∨ c = "shc" := by
  unfold detect_compiler at h
  simp only [] at h
  repeat' split at h
  all_goals first
    | exact Or.inl (Option.some.inj (Option.some.inj h)).symm
    | exact Or.inr (Option.some.inj (Option.some.inj h)).symm
    | simp at h

theorem addCompiler_mem (cs : List String) (x c : String) (h : c ∈ addCompiler cs x) :
    c ∈ cs ∨ c = x := by
  unfold addCompiler at h
  split at h
  · exact Or.inl h
  · rcases List.mem_append.mp h with h1 | h1
    · exact Or.inl h1
    · exact Or.inr (by simpa using h1)

theorem handleFile_compilers (o : Oracle) (tc : String → Path × Bool) (debug : Bool)
    (dst_dir f : Path) (st : LoopState) (cs : List String) (st' : LoopState)
    (h : handleFile o tc debug dst_dir f st cs = .ok st') : st'.compilers = cs := by
  unfold handleFile at h
  simp only [] at h
  rcases hsel : select_tool (mkdirStep debug dst_dir st.w).fs f with _ | tool
  · simp [hsel] at h
  · simp only [hsel] at h
    split at h
    · cases Except.ok.inj h
      rfl
    · rcases he : extract_or_copy o tc tool f dst_dir (mkdirStep debug dst_dir st.w)
        with we | ⟨n, w1⟩
      · rw [he] at h
        cases h
      · rw [he] at h
        cases Except.ok.inj h
        rfl

theorem processFile_compilers (o : Oracle) (tc : String → Path × Bool) (debug : Bool)
    (pr sdk : Path) (st : LoopState) (f : Path) (st' : LoopState)
    (h : processFile o tc debug pr sdk st f = .ok st') :
    ∀ c, c ∈ st'.compilers → c ∈ st.compilers ∨ c = "gcc" ∨ c = "shc" := by
  unfold processFile at h
  split at h
  · cases Except.ok.inj h
    exact fun c hc => Or.inl hc
  · split at h
    · cases h
    · cases Except.ok.inj h
      exact fun c hc => Or.inl hc
    · rename_i compiler heq
      intro c hc
      rw [handleFile_compilers o tc debug _ f st _ st' h] at hc
      rcases addCompiler_mem st.compilers compiler c hc with h1 | h1
      · exact Or.inl h1
      · exact Or.inr (h1 ▸ detect_compiler_range st.w.fs f compiler heq)

theorem runWalk_compilers (o : Oracle) (tc : String → Path × Bool) (debug : Bool)
    (pr sdk : Path) (walk : List Path) (st st' : LoopState)
    (h : runWalk o tc debug pr sdk walk st = .ok st') :
    ∀ c, c ∈ st'.compilers → c ∈ st.compilers ∨ c = "gcc" ∨ c = "shc" := by
  induction walk generalizing st with
  | nil =>
    cases Except.ok.inj h
    exact fun c hc => Or.inl hc
  | cons f rest ih =>
    simp only [runWalk] at h
    rcases hpf : processFile o tc debug pr sdk st f with we | st1
    · rw [hpf] at h
      cases h
    · rw [hpf] at h
      intro c hc
      rcases ih st1 h c hc with h1 | h1
      · exact processFile_compilers o tc debug pr sdk st f st1 hpf c h1
      · exact Or.inr h1

/-! ### What the generated properties file holds after the build -/

theorem touch_read_ne (w : World) (q p : Path) (h : p ≠ q) :
    (touch w q).fs.read p = w.fs.read p := by
  unfold touch
  split
  · rfl
  · exact FS.read_write_ne w.fs q p [] h

theorem create_extra_files_props_read (pr : Path) (sdk_name c : String) (w : World) :
    (create_extra_files pr sdk_name c w).fs.read
        (pr.child "CreateMultipleLibraries.properties") =
      some (strBytes (propsContent sdk_name c)) := by
  have h1 : pr.child "CreateMultipleLibraries.properties" ≠ pr.child "duplicates.txt" := by
    intro hc
    exact absurd ((Path.child_inj pr _ _).mp hc) (by decide)
  have h2 : pr.child "CreateMultipleLibraries.properties" ≠ pr.child "common_symbols.txt" := by
    intro hc
    exact absurd ((Path.child_inj pr _ _).mp hc) (by decide)
  unfold create_extra_files
  simp only [World.print]
  rw [touch_read_ne _ _ _ h2, touch_read_ne _ _ _ h1]
  exact FS.read_write_self w.fs _ _

theorem finishBuild_fs (oracle : Oracle) (fidb_name : String) (pr : Path)
    (st : LoopState) (hc : ¬ st.copied = 0) (ha : oracle.analyzeOk 1 = true) :
    (finishBuild oracle false fidb_name pr st).2.fs =
      (create_extra_files pr fidb_name (st.compilers.headD "")
        (((st.w.print ("[+] Copied " ++ toString st.copied ++ " files")).print
          "[RUN ] analyzeHeadless (1/2)").callProc (.analyze 1))).fs := by
  rcases Bool.eq_false_or_eq_true (oracle.analyzeOk 2) with h2 | h2
  · simp [finishBuild, hc, ha, h2, World.print, World.callProc]
  · simp [finishBuild, hc, ha, h2, World.print, World.callProc]

theorem headD_mem (l : List String) (d : String) (h : l ≠ []) : l.headD d ∈ l := by
  cases l with
  | nil => exact absurd rfl h
  | cons a t => exact List.mem_cons_self a t

/-- C9: when both toolchains were discovered in one real run that reaches the
configuration-generation step, the generated properties file's root-folder
line names exactly one toolchain folder — the head of the discovered-compilers
set in the model's (insertion) iteration order, i.e. what `list(compilers)[0]`
yields — and any other discovered toolchain's label does not occur in that
line, so the second toolchain's folder is not referenced by the
database-generation configuration. -/
theorem c9_props_single_compiler (oracle : Oracle) (fidb_name : String)
    (sdk_root : Path) (walk : List Path) (w : World) (st : LoopState)
    (hpr : w.fs.pathExists ⟨["fid_work_" ++ fidb_name]⟩ = false)
    (hrun : runWalk oracle (toolCfg w.fs sdk_root) false ⟨["fid_work_" ++ fidb_name]⟩
      sdk_root walk
      ⟨0, [], { w with fs := ((w.fs.mkdir ⟨["fid_work_" ++ fidb_name]⟩).mkdir
        (Path.child ⟨["fid_work_" ++ fidb_name]⟩ "ghidraproj")) }⟩ = .ok st)
    (hcopied : ¬ st.copied = 0)
    (ha1 : oracle.analyzeOk 1 = true)
    (hgcc : "gcc" ∈ st.compilers) (hshc : "shc" ∈ st.compilers) :
    st.compilers.headD "" ∈ st.compilers ∧
    (build_fidb oracle false fidb_name sdk_root walk w).2.fs.read
        (Path.child ⟨["fid_work_" ++ fidb_name]⟩ "CreateMultipleLibraries.properties") =
      some (strBytes (propsContent fidb_name (st.compilers.headD ""))) ∧
    rootFolderLine (st.compilers.headD "") ∈
      propsLines fidb_name (st.compilers.headD "") ∧
    (∀ c', c' ∈ st.compilers → c' ≠ st.compilers.headD "" →
      strContains (rootFolderLine (st.compilers.headD "")) c' = false) := by
  have hne : st.compilers ≠ [] := by
    intro hnil
    rw [hnil] at hgcc
    cases hgcc
  have hhead : st.compilers.headD "" ∈ st.compilers := headD_mem st.compilers "" hne
  have hrange : ∀ c, c ∈ st.compilers → c = "gcc" ∨ c = "shc" := by
    intro c hc
    rcases runWalk_compilers oracle (toolCfg w.fs sdk_root) false
      ⟨["fid_work_" ++ fidb_name]⟩ sdk_root walk _ st hrun c hc with h1 | h1
    · cases h1
    · exact h1
  refine ⟨hhead, ?_, ?_, ?_⟩
  · have hb : build_fidb oracle false fidb_name sdk_root walk w =
        finishBuild oracle false fidb_name ⟨["fid_work_" ++ fidb_name]⟩ st := by
      simp only [build_fidb]
      rw [if_neg (by simp)]
      rw [hpr]
      simp only [Bool.false_eq_true, if_false, hrun]
    rw [hb, finishBuild_fs oracle fidb_name _ st hcopied ha1,
      create_extra_files_props_read]
  · simp [propsLines]
  · intro c' hc' hne'
    rcases hrange _ hhead with h1 | h1 <;> rcases hrange c' hc' with h2 | h2
    · exact absurd (h2.trans h1.symm) hne'
    · rw [h1, h2]
      decide
    · rw [h1, h2]
      decide
    · exact absurd (h2.trans h1.symm) hne'

/-- A concrete SDK world discovering both toolchains: a GNU archive (handled
by `ar`, producing one file) and a CodeWarrior object (copy mode). -/
def w9 : World :=
  ⟨⟨[(⟨["sdk", "gnu", "libx.a"]⟩, [1, 2, 3]), (⟨["sdk", "mw", "y.obj"]⟩, [0]),
     (⟨["sdk", "Utl", "Dev", "Gnu", "Bin", "ar.exe"]⟩, [9])], []⟩, [], []⟩

/-- An oracle whose `ar` extraction yields one ELF member. -/
def o9 : Oracle :=
  ⟨fun t _ => if t = "ar" then [("x.o", [127, 69, 76, 70])] else [],
   fun _ b => b, fun _ => true⟩

/-- The loop state the walk of the concrete both-toolchains run reaches. -/
def st9 : LoopState :=
  match runWalk o9 (toolCfg w9.fs ⟨["sdk"]⟩) false ⟨["fid_work_" ++ "db1"]⟩ ⟨["sdk"]⟩
      [⟨["sdk", "gnu", "libx.a"]⟩, ⟨["sdk", "mw", "y.obj"]⟩]
      ⟨0, [], { w9 with fs := ((w9.fs.mkdir ⟨["fid_work_" ++ "db1"]⟩).mkdir
        (Path.child ⟨["fid_work_" ++ "db1"]⟩ "ghidraproj")) }⟩ with
  | .ok st => st
  | .error _ => ⟨0, [], w9⟩

theorem c9_witness :
    st9.compilers.headD "" ∈ st9.compilers ∧
    (build_fidb o9 false "db1" ⟨["sdk"]⟩
        [⟨["sdk", "gnu", "libx.a"]⟩, ⟨["sdk", "mw", "y.obj"]⟩] w9).2.fs.read
        (Path.child ⟨["fid_work_" ++ "db1"]⟩ "CreateMultipleLibraries.properties") =
      some (strBytes (propsContent "db1" (st9.compilers.headD ""))) ∧
    rootFolderLine (st9.compilers.headD "") ∈
      propsLines "db1" (st9.compilers.headD "") ∧
    ("shc" ∈ st9.compilers ∧ "shc" ≠ st9.compilers.headD "" ∧
      strContains (rootFolderLine (st9.compilers.headD "")) "shc" = false) :=
  have hc := c9_props_single_compiler o9 "db1" ⟨["sdk"]⟩
    [⟨["sdk", "gnu", "libx.a"]⟩, ⟨["sdk", "mw", "y.obj"]⟩] w9 st9
    (by decide) (by rfl) (by decide) (by rfl) (by decide) (by decide)
  ⟨hc.1, hc.2.1, hc.2.2.1,
   ⟨by decide, by decide, hc.2.2.2 "shc" (by decide) (by decide)⟩⟩

end DcFidb
